import Mathlib

/-!
Verification development for the SSDLC automation tool
(Express server `server.js`, models `Project.js` / `Task.js`, and the
Netlify serverless variants `projects.js` / `reports.js`).

Shallow embedding conventions:
* JavaScript ISO-timestamp strings produced by `new Date().toISOString()`
  are modelled as natural numbers (`Nat`); the "current time" is passed
  explicitly as a `now` parameter to every operation that stamps a date.
* A JS field holding either a timestamp or `null` becomes `Option Nat`
  (`null` is `none`).
* The project's `overallStatus` field is a `String`, holding exactly the
  literals the source writes: `"Completed"` and `"In Progress"`.
* JS exceptions become `Except String`; the error payload is the message.
* The `phases` field of a `Project` is a plain JS object literal with the
  five own keys `planning .. deployment`.  Property READS such as
  `this.phases[phase]` follow JavaScript semantics: they consult the
  prototype chain, so a key that names a member of `Object.prototype`
  (e.g. `"constructor"`, `"toString"`) yields that inherited function
  object, which is truthy.  This is modelled explicitly below via
  `objectProtoKeys`.
* UUIDs (`uuidv4()`) are modelled as abstract strings supplied by the caller.
* JS `Number` arithmetic in the report statistics is IEEE-754 binary64.
  The nonnegative finite doubles arising there are modelled exactly as
  mantissa-exponent pairs (`F64`, value `m * 2^e`): division and the
  `* 100` multiplication round their exact result to 53 significant
  bits, nearest-even (`flRat`), as IEEE 754 prescribes; `Math.round` is
  the ECMAScript "closest integer, ties toward +∞" applied to the exact
  value of its double argument (`f64Round`).  All magnitudes involved
  lie far inside the normal range, so overflow and subnormals cannot
  occur and are not modelled.
-/

set_option maxRecDepth 8000

namespace SSDLC

/-- One entry of `Project.phases`: `{ completed: ..., completedDate: ... }`
(`models/Project.js` lines 9-13). -/
structure PhaseStatus where
  completed : Bool
  completedDate : Option Nat
deriving Repr, DecidableEq

/-- The five phase keys of the `phases` object literal. -/
inductive Phase where
  | planning
  | design
  | implementation
  | testing
  | deployment
deriving Repr, DecidableEq, Fintype

/-- The string spelled by each phase key. -/
def Phase.name : Phase → String
  | .planning => "planning"
  | .design => "design"
  | .implementation => "implementation"
  | .testing => "testing"
  | .deployment => "deployment"

/-- The five enumerated phase names, in the insertion order of the
`phases` object literal. -/
def phaseNames : List String :=
  ["planning", "design", "implementation", "testing", "deployment"]

/-- Own-property lookup on the `phases` object literal: which of the five
own keys (if any) a string names. -/
def parsePhase (s : String) : Option Phase :=
  if s = "planning" then some .planning
  else if s = "design" then some .design
  else if s = "implementation" then some .implementation
  else if s = "testing" then some .testing
  else if s = "deployment" then some .deployment
  else none

/-- Members of `Object.prototype` visible through property lookup on a
plain object literal.  Every one of them is bound to a truthy value (a
function object, or for `__proto__` the accessor yielding
`Object.prototype` itself), so for any such key `k` the JavaScript test
`!obj[k]` is `false` even though `k` is not an own key of `obj`. -/
def objectProtoKeys : List String :=
  ["constructor", "hasOwnProperty", "isPrototypeOf", "propertyIsEnumerable",
   "toLocaleString", "toString", "valueOf",
   "__defineGetter__", "__defineSetter__", "__lookupGetter__",
   "__lookupSetter__", "__proto__"]

/-- The `phases` object literal of a `Project`: exactly the five own
keys, each holding a `PhaseStatus`. -/
structure Phases where
  planning : PhaseStatus
  design : PhaseStatus
  implementation : PhaseStatus
  testing : PhaseStatus
  deployment : PhaseStatus
deriving Repr, DecidableEq

/-- Read `phases[ph]` for an own key. -/
def Phases.get (phs : Phases) : Phase → PhaseStatus
  | .planning => phs.planning
  | .design => phs.design
  | .implementation => phs.implementation
  | .testing => phs.testing
  | .deployment => phs.deployment

/-- Write `phases[ph] = st` for an own key. -/
def Phases.set (phs : Phases) : Phase → PhaseStatus → Phases
  | .planning, st => { phs with planning := st }
  | .design, st => { phs with design := st }
  | .implementation, st => { phs with implementation := st }
  | .testing, st => { phs with testing := st }
  | .deployment, st => { phs with deployment := st }

/-- JS `Object.values(this.phases)`: the five own values in insertion
order (`models/Project.js` line 34). -/
def Phases.values (phs : Phases) : List PhaseStatus :=
  [phs.planning, phs.design, phs.implementation, phs.testing, phs.deployment]

/-- JS `Object.values(this.phases).every(p => p.completed)`. -/
def Phases.allCompleted (phs : Phases) : Bool :=
  phs.values.all (·.completed)

/-- The `Project` entity (`models/Project.js`, duplicated in the Netlify
`projects.js` function). -/
structure Project where
  id : String
  name : String
  createdDate : Nat
  phases : Phases
  overallStatus : String
deriving Repr, DecidableEq

/-- Constructor `new Project(name)` (`models/Project.js` lines 4-16); the fresh
`uuidv4()` and the creation instant are passed in. -/
def Project.new (id name : String) (now : Nat) : Project :=
  { id := id
    name := name
    createdDate := now
    phases :=
      { planning := { completed := false, completedDate := none }
        design := { completed := false, completedDate := none }
        implementation := { completed := false, completedDate := none }
        testing := { completed := false, completedDate := none }
        deployment := { completed := false, completedDate := none } }
    overallStatus := "In Progress" }

/-- Method `Project.updatePhaseStatus(phase, completed)` (`models/Project.js`
lines 25-36).  The guard is the JavaScript truthiness test
`!this.phases[phase]`: it fails to fire not only on the five own keys
but also on any key naming an inherited `Object.prototype` member
(`objectProtoKeys`).  On such an inherited key the two assignments
`this.phases[phase].completed = ...` / `.completedDate = ...` write
properties onto the inherited function object, leaving the project's own
five phase records untouched, after which `overallStatus` is still
recomputed from `Object.values(this.phases)` (own values only). -/
def Project.updatePhaseStatus (p : Project) (phase : String) (completed : Bool)
    (now : Nat) : Except String Project :=
  match parsePhase phase with
  | some ph =>
    let phases' := p.phases.set ph
      { completed := completed
        completedDate := if completed then some now else none }
    .ok { p with
            phases := phases'
            overallStatus :=
              if phases'.allCompleted then "Completed" else "In Progress" }
  | none =>
    if phase ∈ objectProtoKeys then
      .ok { p with
              overallStatus :=
                if p.phases.allCompleted then "Completed" else "In Progress" }
    else
      .error ("Invalid phase: " ++ phase)

/-- The `Task` entity (`models/Task.js` lines 3-13). -/
structure Task where
  id : String
  phase : String
  title : String
  description : String
  completed : Bool
  completedDate : Option Nat
  notes : String
  evidenceFiles : List String
deriving Repr, DecidableEq

/-- Constructor `new Task(phase, title, description)`; the fresh `uuidv4()` is
passed in. -/
def Task.new (id phase title description : String) : Task :=
  { id := id
    phase := phase
    title := title
    description := description
    completed := false
    completedDate := none
    notes := ""
    evidenceFiles := [] }

/-- Method `Task.complete(notes = '')` (`models/Task.js` lines 40-44): sets
`completed = true`, stamps `completedDate` with the current instant, and
assigns `this.notes = notes`; the JS parameter default makes a no-argument
call pass `notes = ""`. -/
def Task.complete (t : Task) (now : Nat) (notes : String) : Task :=
  { t with completed := true, completedDate := some now, notes := notes }

/-- Method `Task.addEvidence(filename)` (`models/Task.js` lines 46-50):
`if (!this.evidenceFiles.includes(filename)) this.evidenceFiles.push(filename)`. -/
def Task.addEvidence (t : Task) (filename : String) : Task :=
  if filename ∈ t.evidenceFiles then t
  else { t with evidenceFiles := t.evidenceFiles ++ [filename] }

/-- The task mapping of one project, as stored: a JS object whose keys
are phase names, each holding the ordered array of that phase's tasks.
Modelled as an association list in key insertion order (`for..in`
iterates own enumerable string keys in that order). -/
abbrev TaskMap : Type := List (String × List Task)

/-- Body of the `PUT /api/projects/:id/tasks/:taskId` handler applied to
the found task (`server.js` lines 233-242): the `completed` field, when a
boolean was supplied, overwrites `task.completed` and stamps or clears
`task.completedDate`; the `notes` field, when supplied, overwrites
`task.notes` (`notes || ''` is the identity on strings, since the handler
has already rejected non-string `notes`). -/
def applyTaskUpdate (t : Task) (completed : Option Bool) (notes : Option String)
    (now : Nat) : Task :=
  let t1 :=
    match completed with
    | some c => { t with completed := c
                         completedDate := if c then some now else none }
    | none => t
  match notes with
  | some n => { t1 with notes := n }
  | none => t1

/-- Step `allTasks[phase].findIndex(task => task.id === taskId)` followed by
the in-place update of that task: returns the updated array and the
updated task when the id occurs (at its first occurrence), `none`
otherwise. -/
def updateTaskInList (ts : List Task) (taskId : String) (completed : Option Bool)
    (notes : Option String) (now : Nat) : Option (List Task × Task) :=
  match ts with
  | [] => none
  | t :: rest =>
    if t.id = taskId then
      let t' := applyTaskUpdate t completed notes now
      some (t' :: rest, t')
    else
      match updateTaskInList rest taskId completed notes now with
      | some (rest', u) => some (t :: rest', u)
      | none => none

/-- The `for (const phase in allTasks)` search loop of the PUT handler
(`server.js` lines 227-254): walks the phases in key order, updates the
first task whose id matches, recomputes
`allTasks[phase].every(t => t.completed)` over the updated array, and
breaks.  Returns the updated mapping, the affected phase key, the updated
task, and the recomputed all-completed flag. -/
def updateTaskInMap (m : TaskMap) (taskId : String) (completed : Option Bool)
    (notes : Option String) (now : Nat) :
    Option (TaskMap × String × Task × Bool) :=
  match m with
  | [] => none
  | (k, ts) :: rest =>
    match updateTaskInList ts taskId completed notes now with
    | some (ts', u) => some ((k, ts') :: rest, k, u, ts'.all (·.completed))
    | none =>
      match updateTaskInMap rest taskId completed notes now with
      | some (m', k', u, b) => some ((k, ts) :: m', k', u, b)
      | none => none

/-- Successful outcome of the PUT task-update handler: the saved task
mapping and project, plus the affected phase key and updated task. -/
structure TaskUpdateOutcome where
  tasks : TaskMap
  project : Project
  phase : String
  task : Task
deriving Repr, DecidableEq

/-- Core of `PUT /api/projects/:id/tasks/:taskId` (`server.js` lines
211-274; identical logic in the Netlify `projects.js` handler lines
167-231), after input validation: find and update the task, then call
`project.updatePhaseStatus(phase, allPhaseTasksCompleted)`.  A missing
task yields the 404 `"Task not found"`; an exception thrown by
`updatePhaseStatus` propagates (the route's catch turns it into a 500). -/
def putTaskHandler (p : Project) (m : TaskMap) (taskId : String)
    (completed : Option Bool) (notes : Option String) (now : Nat) :
    Except String TaskUpdateOutcome :=
  match updateTaskInMap m taskId completed notes now with
  | none => .error "Task not found"
  | some (m', k, u, allDone) =>
    match p.updatePhaseStatus k allDone now with
    | .ok p' => .ok { tasks := m', project := p', phase := k, task := u }
    | .error e => .error e

/-- A sequence of direct `updatePhaseStatus` calls, each with its own
current instant; errors abort the rest (an exception unwinds). -/
def runUpdates (p : Project) (ops : List (String × Bool × Nat)) :
    Except String Project :=
  ops.foldl (fun acc op => acc.bind fun q =>
    q.updatePhaseStatus op.1 op.2.1 op.2.2) (.ok p)

/-- The mutations the system performs on one project's state: a direct
phase-status update, or a task update through the PUT handler. -/
inductive Op where
  | phaseUpdate (phase : String) (completed : Bool) (now : Nat)
  | taskUpdate (taskId : String) (completed : Option Bool)
      (notes : Option String) (now : Nat)

/-- One project's full state: the `Project` record and its task mapping. -/
structure SystemState where
  project : Project
  tasks : TaskMap

/-- Apply one operation. -/
def applyOp (st : SystemState) : Op → Except String SystemState
  | .phaseUpdate phase c now =>
    (st.project.updatePhaseStatus phase c now).map fun q =>
      { st with project := q }
  | .taskUpdate taskId c notes now =>
    (putTaskHandler st.project st.tasks taskId c notes now).map fun out =>
      { project := out.project, tasks := out.tasks }

/-- Apply a sequence of operations. -/
def runOps (st : SystemState) (ops : List Op) : Except String SystemState :=
  ops.foldl (fun acc op => acc.bind fun s => applyOp s op) (.ok st)

/-- Fuel-bounded binary logarithm: `log2fuel fuel n = ⌊log2 n⌋` for
`1 ≤ n < 2^fuel` (and `0` for `n = 0`).  Structural recursion on the
fuel keeps it kernel-computable. -/
def log2fuel : Nat → Nat → Nat
  | 0, _ => 0
  | fuel + 1, n => if n ≥ 2 then log2fuel fuel (n / 2) + 1 else 0

/-- `⌊log2 n⌋` for the magnitudes occurring here (all far below
`2^128`). -/
def natLog2 (n : Nat) : Nat := log2fuel 128 n

/-- `⌊log2 (a / b)⌋` for `a, b ≥ 1`: the difference of the integer logs
is off by at most one, and the exact comparison `a / b ≥ 2^d` settles
which. -/
def floorLog2 (a b : Nat) : Int :=
  let d : Int := (natLog2 a : Int) - (natLog2 b : Int)
  if 0 ≤ d then (if b * 2 ^ d.toNat ≤ a then d else d - 1)
  else (if b ≤ a * 2 ^ (-d).toNat then d else d - 1)

/-- Round the exact ratio `N / D` (`D ≥ 1`) to the nearest integer with
ties to even — the IEEE-754 default rounding of a mantissa. -/
def roundMantissa (N D : Nat) : Nat :=
  let n := N / D
  let r := N % D
  if 2 * r < D then n
  else if D < 2 * r then n + 1
  else if n % 2 = 0 then n else n + 1

/-- A nonnegative finite binary64 value, represented exactly: the value
is `m * 2^e`.  After `flRat`, `m < 2^53` holds (or `m = 2^53` when
rounding carried, which denotes the same double). -/
structure F64 where
  m : Nat
  e : Int
deriving Repr, DecidableEq

/-- The IEEE-754 binary64 result of dividing `a` by `b` (`a, b ≥ 1`,
round to nearest, ties to even): normalize the exact ratio to a 53-bit
significand position and round the significand. -/
def flRat (a b : Nat) : F64 :=
  let e : Int := floorLog2 a b - 52
  if 0 ≤ e then { m := roundMantissa a (b * 2 ^ e.toNat), e := e }
  else { m := roundMantissa (a * 2 ^ (-e).toNat) b, e := e }

/-- The binary64 product of the double `x` with the small integer `k`
(exactly representable): the exact product `(k * m) * 2^e` rounded back
to 53 significant bits; rounding is invariant under the power-of-two
scale `2^e`. -/
def f64MulNat (x : F64) (k : Nat) : F64 :=
  let p := flRat (k * x.m) 1
  { m := p.m, e := p.e + x.e }

/-- ECMAScript `Math.round` on a nonnegative double: the integer closest
to its exact value `m * 2^e`, ties toward `+∞`, i.e.
`⌊m * 2^e + 1/2⌋ = (2 m + 2^k) / 2^(k+1)` for `e = -k < 0` (the results
here are below `2^53`, so they are returned exactly). -/
def f64Round (x : F64) : Nat :=
  if 0 ≤ x.e then x.m * 2 ^ x.e.toNat
  else
    let k := (-x.e).toNat
    (2 * x.m + 2 ^ k) / 2 ^ (k + 1)

/-- The JS expression `Math.round((c / t) * 100)` for integer `c, t`
with `t ≥ 1`, computed in binary64: `c / t` is one correctly rounded
division (for `c = 0` it is exactly `+0` and the result is `0`), the
`* 100` is one correctly rounded multiplication, and `Math.round` acts
on the exact value of the product. -/
def jsPercent (c t : Nat) : Nat :=
  if c = 0 then 0 else f64Round (f64MulNat (flRat c t) 100)

/-- One entry of the report's `phaseStats` (`server.js` lines 467-471;
Netlify `reports.js` lines 53-57). -/
structure PhaseStat where
  total : Nat
  completed : Nat
  percentage : ℤ
deriving Repr, DecidableEq

/-- Entry `phaseStats[phase]` for one phase's task array: `total`, `completed`,
and `percentage = total > 0 ? Math.round(completed / total * 100) : 0`. -/
def phaseStat (ts : List Task) : PhaseStat :=
  let completedCount := (ts.filter (·.completed)).length
  { total := ts.length
    completed := completedCount
    percentage :=
      if ts.length > 0 then (jsPercent completedCount ts.length : ℤ)
      else 0 }

/-- The report's per-phase statistics table, in phase key order. -/
def reportStats (m : TaskMap) : List (String × PhaseStat) :=
  m.map fun kts => (kts.1, phaseStat kts.2)

/-- The report's running grand totals (`totalTasks`, `completedTasks`,
accumulated over the same loop, `server.js` lines 459-475). -/
def grandTotals (m : TaskMap) : Nat × Nat :=
  m.foldl (fun acc kts =>
    (acc.1 + kts.2.length, acc.2 + (kts.2.filter (·.completed)).length))
    (0, 0)

/-- Score `overallSecurityScore = totalTasks > 0 ?
Math.round(completedTasks / totalTasks * 100) : 0` (`server.js` line 477;
Netlify `reports.js` line 63). -/
def overallSecurityScore (m : TaskMap) : ℤ :=
  let g := grandTotals m
  if g.1 > 0 then (jsPercent g.2 g.1 : ℤ) else 0

/-- The specification's rounding rule, written independently of the
code: standard round-half-up of the exact percentage `100 * c / t`,
defined as `0` when `t = 0`.  For `t > 0` round-half-up of a nonnegative
rational `x` is `⌊x + 1/2⌋`, and `⌊100 c / t + 1/2⌋ = (200 c + t) / (2 t)`
in integer arithmetic, which is the closed form used here. -/
def roundHalfUpPct (c t : Nat) : Nat :=
  if t = 0 then 0 else (200 * c + t) / (2 * t)

/-! ### Sample data used by concrete witnesses -/

/-- A completed sample task. -/
def doneTask (id phase : String) (at0 : Nat) : Task :=
  { Task.new id phase "T" "D" with completed := true, completedDate := some at0 }

/-- A task mapping with 10 tasks across the 5 phases, 5 of them
completed (both planning, both design, one implementation). -/
def sampleTasks10half : TaskMap :=
  [("planning", [doneTask "t1" "planning" 1, doneTask "t2" "planning" 1]),
   ("design", [doneTask "t3" "design" 1, doneTask "t4" "design" 1]),
   ("implementation", [doneTask "t5" "implementation" 1,
                       Task.new "t6" "implementation" "T" "D"]),
   ("testing", [Task.new "t7" "testing" "T" "D", Task.new "t8" "testing" "T" "D"]),
   ("deployment", [Task.new "t9" "deployment" "T" "D",
                   Task.new "t10" "deployment" "T" "D"])]

/-- A task with pre-existing non-empty notes. -/
def notedTask : Task :=
  { Task.new "t0" "planning" "T" "D" with notes := "keep" }

/-- The PhaseStatus well-formedness invariant of the spec: a phase's
`completedDate` is present exactly when its `completed` flag is set. -/
def datesConsistent (phs : Phases) : Prop :=
  ∀ ph : Phase,
    ((phs.get ph).completedDate).isSome = (phs.get ph).completed

/-- A fresh sample project. -/
def sampleProj : Project := Project.new "p1" "Acme" 0

/-- A fresh sample task. -/
def sampleTask1 : Task := Task.new "t1" "planning" "T" "D"

/-- A one-entry sample task mapping. -/
def sampleMap1 : TaskMap := [("planning", [sampleTask1])]

/-- Sample `sampleProj` after its planning phase is marked completed at
instant 3. -/
def sampleUpdatedProject : Project :=
  { sampleProj with
      phases := { sampleProj.phases with
                    planning := { completed := true, completedDate := some 3 } } }

/-- Outcome of completing `sampleTask1` (`completed = true`) at
instant 4. -/
def sampleOutcome1 : TaskUpdateOutcome :=
  { tasks := [("planning",
      [{ sampleTask1 with completed := true, completedDate := some 4 }])]
    project := { sampleProj with
        phases := { sampleProj.phases with
                      planning := { completed := true, completedDate := some 4 } } }
    phase := "planning"
    task := { sampleTask1 with completed := true, completedDate := some 4 } }

/-- Outcome of a notes-only update to an already-completed planning task
at instant 9. -/
def sampleOutcome2 : TaskUpdateOutcome :=
  { tasks := [("planning", [{ doneTask "t1" "planning" 1 with notes := "n" }])]
    project := { sampleProj with
        phases := { sampleProj.phases with
                      planning := { completed := true, completedDate := some 9 } } }
    phase := "planning"
    task := { doneTask "t1" "planning" 1 with notes := "n" } }

/-- A task list with 200 tasks, 113 of them completed: a shape on which
binary64 rounding of `(c / t) * 100` lands just below the exact half
(`56.49999999999999...`), so `Math.round` gives 56 while exact
round-half-up of `56.5` gives 57. -/
def tasks200 : List Task :=
  List.replicate 113 (doneTask "c" "planning" 1)
    ++ List.replicate 87 (Task.new "i" "planning" "T" "D")

/-! ### Basic lemmas about the embedded operations -/


theorem Phases.get_set_self (phs : Phases) (ph : Phase) (st : PhaseStatus) :
    (phs.set ph st).get ph = st := by
  cases ph <;> rfl

theorem Phases.get_set_ne (phs : Phases) (ph ph' : Phase) (st : PhaseStatus)
    (h : ph' ≠ ph) : (phs.set ph st).get ph' = phs.get ph' := by
  cases ph <;> cases ph' <;> first | rfl | exact absurd rfl h

theorem Phases.allCompleted_iff (phs : Phases) :
    phs.allCompleted = true ↔ ∀ ph : Phase, (phs.get ph).completed = true := by
  constructor
  · intro h ph
    simp [Phases.allCompleted, Phases.values, List.all] at h
    cases ph <;> simp [Phases.get, h.1, h.2.1, h.2.2.1, h.2.2.2.1, h.2.2.2.2]
  · intro h
    simp [Phases.allCompleted, Phases.values, List.all]
    exact ⟨h .planning, h .design, h .implementation, h .testing, h .deployment⟩

theorem parsePhase_name (ph : Phase) : parsePhase ph.name = some ph := by
  cases ph <;> rfl

theorem parsePhase_eq_some (s : String) (ph : Phase) (h : parsePhase s = some ph) :
    s = ph.name := by
  unfold parsePhase at h
  split_ifs at h with h1 h2 h3 h4 h5 <;>
    (injection h with h0; subst h0; assumption)

theorem parsePhase_of_mem (s : String) (h : s ∈ phaseNames) :
    ∃ ph : Phase, parsePhase s = some ph := by
  simp [phaseNames] at h
  rcases h with h | h | h | h | h <;> subst h <;> exact ⟨_, rfl⟩

theorem updatePhaseStatus_ok_status (p q : Project) (s : String) (c : Bool)
    (now : Nat) (h : p.updatePhaseStatus s c now = .ok q) :
    q.overallStatus = (if q.phases.allCompleted then "Completed" else "In Progress") := by
  unfold Project.updatePhaseStatus at h
  cases hp : parsePhase s with
  | some ph => rw [hp] at h; simp at h; rw [← h]
  | none =>
    rw [hp] at h
    by_cases hm : s ∈ objectProtoKeys
    · simp [hm] at h; rw [← h]
    · simp [hm] at h

theorem updatePhaseStatus_fields (p q : Project) (s : String) (c : Bool)
    (now : Nat) (h : p.updatePhaseStatus s c now = .ok q) :
    q.id = p.id ∧ q.name = p.name ∧ q.createdDate = p.createdDate := by
  unfold Project.updatePhaseStatus at h
  cases hp : parsePhase s with
  | some ph => rw [hp] at h; simp at h; rw [← h]; exact ⟨rfl, rfl, rfl⟩
  | none =>
    rw [hp] at h
    by_cases hm : s ∈ objectProtoKeys
    · simp [hm] at h; rw [← h]; exact ⟨rfl, rfl, rfl⟩
    · simp [hm] at h

theorem updatePhaseStatus_valid_get (p q : Project) (s : String) (ph : Phase)
    (c : Bool) (now : Nat) (hp : parsePhase s = some ph)
    (h : p.updatePhaseStatus s c now = .ok q) :
    q.phases.get ph = { completed := c,
                        completedDate := if c then some now else none } ∧
    (∀ ph' : Phase, ph' ≠ ph → q.phases.get ph' = p.phases.get ph') := by
  unfold Project.updatePhaseStatus at h
  rw [hp] at h
  simp at h
  rw [← h]
  constructor
  · exact Phases.get_set_self ..
  · intro ph' hne; exact Phases.get_set_ne _ _ _ _ hne

theorem foldl_except_error {α β ε : Type} (g : α → β → Except ε α)
    (l : List β) (e : ε) :
    l.foldl (fun acc op => Except.bind acc fun s => g s op)
      (Except.error e) = Except.error e := by
  induction l with
  | nil => rfl
  | cons x xs ih => exact ih


theorem updateTaskInList_some (ts : List Task) (tid : String)
    (c : Option Bool) (n : Option String) (now : Nat) (ts' : List Task)
    (u : Task) (h : updateTaskInList ts tid c n now = some (ts', u)) :
    ∃ pre t post, ts = pre ++ t :: post ∧
      ts' = pre ++ applyTaskUpdate t c n now :: post ∧
      u = applyTaskUpdate t c n now ∧ t.id = tid := by
  induction ts generalizing ts' with
  | nil => simp [updateTaskInList] at h
  | cons t rest ih =>
    unfold updateTaskInList at h
    by_cases hid : t.id = tid
    · simp [hid] at h
      exact ⟨[], t, rest, by simp, by simp [h.1], by simp [h.2], hid⟩
    · simp [hid] at h
      cases hr : updateTaskInList rest tid c n now with
      | none => rw [hr] at h; simp at h
      | some pr =>
        rw [hr] at h
        obtain ⟨rest', u'⟩ := pr
        simp at h
        obtain ⟨hts, hu'⟩ := h
        subst hts; subst hu'
        obtain ⟨pre, t0, post, he, he', hu, hid0⟩ := ih rest' hr
        exact ⟨t :: pre, t0, post, by simp [he], by simp [he'], hu, hid0⟩

theorem updateTaskInMap_some (m : TaskMap) (tid : String) (c : Option Bool)
    (n : Option String) (now : Nat) (m' : TaskMap) (k : String) (u : Task)
    (b : Bool) (h : updateTaskInMap m tid c n now = some (m', k, u, b)) :
    ∃ pre ts ts' post, m = pre ++ (k, ts) :: post ∧
      m' = pre ++ (k, ts') :: post ∧
      updateTaskInList ts tid c n now = some (ts', u) ∧
      b = ts'.all (·.completed) := by
  induction m generalizing m' with
  | nil => simp [updateTaskInMap] at h
  | cons e rest ih =>
    obtain ⟨k0, ts0⟩ := e
    unfold updateTaskInMap at h
    cases hl : updateTaskInList ts0 tid c n now with
    | some pr =>
      obtain ⟨ts', u'⟩ := pr
      rw [hl] at h
      simp at h
      obtain ⟨hm', hk, hu, hb⟩ := h
      subst hk; subst hu; subst hb; subst hm'
      exact ⟨[], ts0, ts', rest, rfl, rfl, hl, rfl⟩
    | none =>
      rw [hl] at h
      cases hr : updateTaskInMap rest tid c n now with
      | none => rw [hr] at h; simp at h
      | some qr =>
        rw [hr] at h
        obtain ⟨m0, k0', u0, b0⟩ := qr
        simp at h
        obtain ⟨hm', hk, hu, hb⟩ := h
        subst hk; subst hu; subst hb; subst hm'
        obtain ⟨pre, ts, ts', post, he, he', hul, hb2⟩ := ih m0 hr
        exact ⟨(k0, ts0) :: pre, ts, ts', post, by simp [he], by simp [he'],
          hul, hb2⟩

theorem putTaskHandler_ok (p : Project) (m : TaskMap) (tid : String)
    (c : Option Bool) (n : Option String) (now : Nat)
    (out : TaskUpdateOutcome) (h : putTaskHandler p m tid c n now = .ok out) :
    ∃ m' k u b p', updateTaskInMap m tid c n now = some (m', k, u, b) ∧
      p.updatePhaseStatus k b now = .ok p' ∧
      out = { tasks := m', project := p', phase := k, task := u } := by
  unfold putTaskHandler at h
  split at h
  next => exact absurd h (by simp)
  next m' k' u' allDone hm =>
    split at h
    next p' hp =>
      refine ⟨m', k', u', allDone, p', hm, hp, ?_⟩
      simpa using h.symm
    next e hp => exact absurd h (by simp)

/-! ### Rounding arithmetic -/

/-- Exhaustive check: for every total `t ≤ 39` and every `c ≤ t`, the
binary64 evaluation of `Math.round((c / t) * 100)` agrees with exact
round-half-up.  The first disagreement is at `c = 23`, `t = 40` — the
JS classic `0.575 * 100 = 57.49999999999999`. -/
theorem jsPercent_agrees : ∀ t < 40, ∀ c < t + 1,
    (if 0 < t then ((jsPercent c t : ℕ) : ℤ) else 0)
      = (roundHalfUpPct c t : ℤ) := by decide

/-- The running grand totals count completed tasks among counted tasks:
the completed component never exceeds the total component. -/
theorem grandTotals_le (m : TaskMap) (a b : Nat) (h : b ≤ a) :
    (m.foldl (fun acc kts =>
        (acc.1 + kts.2.length, acc.2 + (kts.2.filter (·.completed)).length))
      (a, b)).2
      ≤ (m.foldl (fun acc kts =>
          (acc.1 + kts.2.length,
            acc.2 + (kts.2.filter (·.completed)).length)) (a, b)).1 := by
  induction m generalizing a b with
  | nil => exact h
  | cons e rest ih =>
    exact ih _ _ (Nat.add_le_add h (List.length_filter_le _ _))

/-- The per-phase percentage computed by the report equals the
round-half-up closed form whenever the phase has at most 39 tasks. -/
theorem phaseStat_percentage (ts : List Task) (hts : ts.length ≤ 39) :
    (phaseStat ts).percentage
      = (roundHalfUpPct (ts.filter (·.completed)).length ts.length : ℤ) := by
  have hc : (ts.filter (·.completed)).length < ts.length + 1 :=
    Nat.lt_succ_of_le (List.length_filter_le _ _)
  exact jsPercent_agrees ts.length (by omega) _ hc

/-- The overall security score equals the round-half-up closed form of
the grand totals whenever the grand total is at most 39. -/
theorem overallSecurityScore_eq (m : TaskMap)
    (hg : (grandTotals m).1 ≤ 39) :
    overallSecurityScore m
      = (roundHalfUpPct (grandTotals m).2 (grandTotals m).1 : ℤ) := by
  have hc : (grandTotals m).2 < (grandTotals m).1 + 1 :=
    Nat.lt_succ_of_le (grandTotals_le m 0 0 (Nat.le_refl 0))
  exact jsPercent_agrees (grandTotals m).1 (by omega) _ hc


/-- After any single successful `updatePhaseStatus` call, the overall
status is the recomputation from the current phase flags. -/
theorem runUpdates_ok_status (ops : List (String × Bool × Nat))
    (p q : Project) (hne : ops ≠ []) (hok : runUpdates p ops = .ok q) :
    q.overallStatus
      = (if q.phases.allCompleted then "Completed" else "In Progress") := by
  induction ops generalizing p with
  | nil => exact absurd rfl hne
  | cons o rest ih =>
    have hrw : runUpdates p (o :: rest)
        = rest.foldl
            (fun acc op => Except.bind acc fun r =>
              r.updatePhaseStatus op.1 op.2.1 op.2.2)
            (p.updatePhaseStatus o.1 o.2.1 o.2.2) := rfl
    cases hstep : p.updatePhaseStatus o.1 o.2.1 o.2.2 with
    | error e =>
      rw [hrw, hstep,
        foldl_except_error
          (fun (r : Project) (op : String × Bool × Nat) =>
            r.updatePhaseStatus op.1 op.2.1 op.2.2) rest e] at hok
      exact absurd hok (by simp)
    | ok p' =>
      rw [hrw, hstep] at hok
      cases rest with
      | nil =>
        have hq : p' = q := by simpa using hok
        subst hq
        exact updatePhaseStatus_ok_status p p' o.1 o.2.1 o.2.2 hstep
      | cons o2 rest2 =>
        exact ih p' (by simp) hok

/-- Successful `updatePhaseStatus` calls preserve the
completedDate/completed consistency of all five phases. -/
theorem updatePhaseStatus_datesConsistent (p q : Project) (s : String)
    (c : Bool) (now : Nat) (hinv : datesConsistent p.phases)
    (h : p.updatePhaseStatus s c now = .ok q) : datesConsistent q.phases := by
  unfold Project.updatePhaseStatus at h
  cases hp : parsePhase s with
  | some ph =>
    rw [hp] at h
    simp at h
    have hq : q.phases = p.phases.set ph
        { completed := c, completedDate := if c then some now else none } := by
      rw [← h]
    intro ph'
    rw [hq]
    by_cases he : ph' = ph
    · subst he
      rw [Phases.get_set_self]
      cases c <;> rfl
    · rw [Phases.get_set_ne _ _ _ _ he]
      exact hinv ph'
  | none =>
    rw [hp] at h
    by_cases hm : s ∈ objectProtoKeys
    · simp [hm] at h
      have hq : q.phases = p.phases := by rw [← h]
      rw [hq]
      exact hinv
    · simp [hm] at h

/-- Every system operation preserves the date/flag consistency of the
project's phases. -/
theorem applyOp_datesConsistent (st st' : SystemState) (op : Op)
    (hinv : datesConsistent st.project.phases)
    (h : applyOp st op = .ok st') : datesConsistent st'.project.phases := by
  cases op with
  | phaseUpdate s c now =>
    simp only [applyOp] at h
    cases hu : st.project.updatePhaseStatus s c now with
    | ok q =>
      rw [hu] at h
      simp [Except.map] at h
      have hq : st'.project = q := by rw [← h]
      rw [hq]
      exact updatePhaseStatus_datesConsistent _ _ _ _ _ hinv hu
    | error e =>
      rw [hu] at h
      simp [Except.map] at h
  | taskUpdate tid c n now =>
    simp only [applyOp] at h
    cases hu : putTaskHandler st.project st.tasks tid c n now with
    | ok out =>
      rw [hu] at h
      simp [Except.map] at h
      obtain ⟨m', k, u, b, p', hm, hp, hout⟩ :=
        putTaskHandler_ok _ _ _ _ _ _ _ hu
      have hq : st'.project = p' := by rw [← h, hout]
      rw [hq]
      exact updatePhaseStatus_datesConsistent _ _ _ _ _ hinv hp
    | error e =>
      rw [hu] at h
      simp [Except.map] at h

/-- Running any successful sequence of operations preserves the
date/flag consistency of the project's phases. -/
theorem runOps_datesConsistent (ops : List Op) (st st' : SystemState)
    (hinv : datesConsistent st.project.phases)
    (hok : runOps st ops = .ok st') : datesConsistent st'.project.phases := by
  induction ops generalizing st with
  | nil =>
    have hq : st = st' := by simpa [runOps] using hok
    rw [← hq]
    exact hinv
  | cons o rest ih =>
    have hrw : runOps st (o :: rest)
        = rest.foldl (fun acc op => Except.bind acc fun r => applyOp r op)
            (applyOp st o) := rfl
    cases hstep : applyOp st o with
    | error e =>
      rw [hrw, hstep,
        foldl_except_error (fun r op => applyOp r op) rest e] at hok
      exact absurd hok (by simp)
    | ok s1 =>
      rw [hrw, hstep] at hok
      exact ih s1 (applyOp_datesConsistent st s1 o hinv hstep) hok

/-! ### Claims -/

/-- C4 (amended): the claim as stated fails on the code, because the
report evaluates `Math.round((completedCount / total) * 100)` in IEEE-754
binary64, which can land just below the exact half: 113 completed of 200
total yields 56 where exact round-half-up gives 57 (see the
counterexample).  Amended: for every phase with at most 39 tasks and
every mapping with grand total at most 39 — which covers every mapping
this system creates (2 tasks per phase, 10 overall) — the per-phase
`percentage` and `overallSecurityScore` equal round-half-up of
`completedCount / total * 100`; the percentage is 0 for an empty phase,
the score is 0 when the grand total is 0 (no division-by-zero failure),
and concretely 5 completed of 10 total scores 50 and the empty mapping
scores 0. -/
theorem claim_C4 (m : TaskMap) (ts : List Task)
    (hts : ts.length ≤ 39) (hg : (grandTotals m).1 ≤ 39) :
    (phaseStat ts).percentage
      = (roundHalfUpPct (phaseStat ts).completed (phaseStat ts).total : ℤ) ∧
    (ts = [] → (phaseStat ts).percentage = 0) ∧
    overallSecurityScore m
      = (roundHalfUpPct (grandTotals m).2 (grandTotals m).1 : ℤ) ∧
    ((grandTotals m).1 = 0 → overallSecurityScore m = 0) ∧
    overallSecurityScore sampleTasks10half = 50 ∧
    overallSecurityScore [] = 0 := by
  refine ⟨phaseStat_percentage ts hts, ?_, overallSecurityScore_eq m hg,
    ?_, by decide, rfl⟩
  · intro h; subst h; rfl
  · intro h; simp [overallSecurityScore, h]

/-- Counterexample for C4 as frozen: at 113 completed of 200 total the
report's binary64 percentage is 56 while exact round-half-up of
`113 / 200 * 100 = 56.5` is 57, so the percentage does not equal
round-half-up for every task mapping. -/
theorem claim_C4_counterexample :
    (phaseStat tasks200).total = 200 ∧
    (phaseStat tasks200).completed = 113 ∧
    (phaseStat tasks200).percentage = 56 ∧
    (roundHalfUpPct 113 200 : ℤ) = 57 ∧
    (phaseStat tasks200).percentage
      ≠ (roundHalfUpPct (phaseStat tasks200).completed
          (phaseStat tasks200).total : ℤ) := by decide

/-- Witness for C4 at concrete inputs. -/
theorem claim_C4_witness :
    ((grandTotals sampleTasks10half).1 ≤ 39 ∧
      overallSecurityScore sampleTasks10half = 50) ∧
    (([] : List Task) = [] ∧ (phaseStat []).percentage = 0) ∧
    ((grandTotals []).1 = 0 ∧ overallSecurityScore [] = 0) :=
  ⟨⟨by decide,
    (claim_C4 sampleTasks10half [] (by decide) (by decide)).2.2.2.2.1⟩,
   ⟨rfl, (claim_C4 [] [] (by decide) (by decide)).2.1 rfl⟩,
   ⟨rfl, (claim_C4 [] [] (by decide) (by decide)).2.2.2.1 rfl⟩⟩

/-- C5: in the task-update handler, `completed == true` stamps
`completedDate` with the current instant and `completed == false` clears
it; re-applying the same boolean leaves the flag identical, but
re-applying `true` at a later instant refreshes `completedDate`, so the
operation is idempotent in boolean terms only, not in timestamp terms. -/
theorem claim_C5 (t : Task) (n1 n2 : Option String) (b : Bool) (t1 t2 : Nat)
    (hne : t1 ≠ t2) :
    ((applyTaskUpdate t (some true) n1 t1).completed = true ∧
     (applyTaskUpdate t (some true) n1 t1).completedDate = some t1) ∧
    ((applyTaskUpdate t (some false) n1 t1).completed = false ∧
     (applyTaskUpdate t (some false) n1 t1).completedDate = none) ∧
    (applyTaskUpdate (applyTaskUpdate t (some b) n1 t1) (some b) n2 t2).completed
      = (applyTaskUpdate t (some b) n1 t1).completed ∧
    (applyTaskUpdate (applyTaskUpdate t (some true) n1 t1) (some true) n2 t2).completedDate
      = some t2 ∧
    (applyTaskUpdate (applyTaskUpdate t (some true) n1 t1) (some true) n2 t2).completedDate
      ≠ (applyTaskUpdate t (some true) n1 t1).completedDate := by
  cases n1 <;> cases n2 <;> cases b <;>
    simp [applyTaskUpdate] <;> omega

/-- Witness for C5 at concrete inputs. -/
theorem claim_C5_witness :
    (3 : Nat) ≠ 8 ∧
    ((applyTaskUpdate (applyTaskUpdate notedTask (some true) none 3)
        (some true) none 8).completedDate = some 8) :=
  ⟨by decide, (claim_C5 notedTask none none true 3 8 (by decide)).2.2.2.1⟩

/-- C7: `addEvidence` has set semantics over an ordered sequence: adding
a reference already present is a no-op, a new reference is appended at
the end, the operation is idempotent, and adding "a.pdf" twice to a task
with no evidence yields one entry. -/
theorem claim_C7 (t : Task) (r : String) :
    (r ∈ t.evidenceFiles → t.addEvidence r = t) ∧
    (r ∉ t.evidenceFiles →
      (t.addEvidence r).evidenceFiles = t.evidenceFiles ++ [r]) ∧
    (t.addEvidence r).addEvidence r = t.addEvidence r ∧
    (t.evidenceFiles = [] →
      ((t.addEvidence "a.pdf").addEvidence "a.pdf").evidenceFiles.length = 1) := by
  refine ⟨?_, ?_, ?_, ?_⟩
  · intro hr; simp [Task.addEvidence, hr]
  · intro hr; simp [Task.addEvidence, hr]
  · by_cases hr : r ∈ t.evidenceFiles
    · simp [Task.addEvidence, hr]
    · simp [Task.addEvidence, hr]
  · intro h; simp [Task.addEvidence, h]

/-- Witness for C7 at concrete inputs. -/
theorem claim_C7_witness :
    ("a.pdf" ∉ notedTask.evidenceFiles ∧
      (notedTask.addEvidence "a.pdf").evidenceFiles
        = notedTask.evidenceFiles ++ ["a.pdf"]) ∧
    (notedTask.evidenceFiles = [] ∧
      ((notedTask.addEvidence "a.pdf").addEvidence "a.pdf").evidenceFiles.length
        = 1) :=
  ⟨⟨by decide, (claim_C7 notedTask "a.pdf").2.1 (by decide)⟩,
   ⟨rfl, (claim_C7 notedTask "a.pdf").2.2.2 rfl⟩⟩

/-- C8: the claim says `updatePhaseStatus` must fail for EVERY phase name
outside the five enumerated ones, but the truthiness guard
`!this.phases[phase]` also passes for strings naming inherited
`Object.prototype` members: `updatePhaseStatus("constructor", true)`
does not throw (it returns normally, leaving the five own phase records
unchanged, hence for a fresh project it returns the project unchanged). -/
theorem claim_C8 :
    "constructor" ∉ phaseNames ∧
    (Project.new "p1" "Acme" 0).updatePhaseStatus "constructor" true 1
      = .ok (Project.new "p1" "Acme" 0) ∧
    (Project.new "p1" "Acme" 0).updatePhaseStatus "banana" true 1
      = .error "Invalid phase: banana" :=
  ⟨by decide, by rfl, by rfl⟩

/-- C9: `Task.complete` always overwrites `notes` with its argument,
which defaults to the empty string, so a no-argument call erases
previously stored non-empty notes while setting `completed = true` and
stamping `completedDate`. -/
theorem claim_C9 (t : Task) (now : Nat) (hnotes : t.notes ≠ "") :
    (t.complete now "").completed = true ∧
    (t.complete now "").completedDate = some now ∧
    (t.complete now "").notes = "" ∧
    (t.complete now "").notes ≠ t.notes := by
  refine ⟨rfl, rfl, rfl, fun h => hnotes h.symm⟩

/-- Witness for C9 at a concrete task. -/
theorem claim_C9_witness :
    notedTask.notes ≠ "" ∧
    ((notedTask.complete 7 "").completed = true ∧
     (notedTask.complete 7 "").completedDate = some 7 ∧
     (notedTask.complete 7 "").notes = "" ∧
     (notedTask.complete 7 "").notes ≠ notedTask.notes) :=
  ⟨by decide, claim_C9 notedTask 7 (by decide)⟩

/-- C1: after every (nonempty) sequence of successful `updatePhaseStatus`
calls with valid phase names, `overallStatus` is `"Completed"` exactly
when all five phase flags are set and `"In Progress"` otherwise: the
status is always the recomputation from the phase flags, never an
independently retained value. -/
theorem claim_C1 (p : Project) (ops : List (String × Bool × Nat))
    (q : Project) (hne : ops ≠ [])
    (_hvalid : ∀ op ∈ ops, op.1 ∈ phaseNames)
    (hok : runUpdates p ops = .ok q) :
    (q.overallStatus = "Completed"
      ↔ ∀ ph : Phase, (q.phases.get ph).completed = true) ∧
    ((¬ ∀ ph : Phase, (q.phases.get ph).completed = true) →
      q.overallStatus = "In Progress") := by
  have hs := runUpdates_ok_status ops p q hne hok
  by_cases hall : q.phases.allCompleted = true
  · rw [if_pos hall] at hs
    refine ⟨⟨fun _ => (Phases.allCompleted_iff _).mp hall, fun _ => hs⟩, ?_⟩
    intro hno
    exact absurd ((Phases.allCompleted_iff _).mp hall) hno
  · rw [if_neg hall] at hs
    refine ⟨⟨fun hc => ?_, fun hallget => ?_⟩, fun _ => hs⟩
    · rw [hs] at hc
      exact absurd hc (by decide)
    · exact absurd ((Phases.allCompleted_iff _).mpr hallget) hall

/-- Witness for C1 at a concrete run. -/
theorem claim_C1_witness :
    ([("planning", true, 3)] : List (String × Bool × Nat)) ≠ [] ∧
    "planning" ∈ phaseNames ∧
    runUpdates (Project.new "p1" "Acme" 0) [("planning", true, 3)]
      = .ok sampleUpdatedProject ∧
    sampleUpdatedProject.overallStatus = "In Progress" :=
  ⟨by decide, by decide, rfl,
    (claim_C1 (Project.new "p1" "Acme" 0) [("planning", true, 3)]
      sampleUpdatedProject (by decide) (by decide) rfl).2 (by decide)⟩

/-- C6: starting from a freshly constructed project, after any successful
sequence of operations every phase's `completedDate` is present exactly
when its `completed` flag is true; moreover any successful
`updatePhaseStatus(phase, false)` clears `completedDate` in that same
update. -/
theorem claim_C6 (id name : String) (t0 : Nat) (m : TaskMap)
    (ops : List Op) (st : SystemState)
    (hok : runOps ⟨Project.new id name t0, m⟩ ops = .ok st) :
    (∀ ph : Phase,
      ((st.project.phases.get ph).completedDate).isSome
        = (st.project.phases.get ph).completed) ∧
    (∀ (p q : Project) (s : String) (ph : Phase) (now : Nat),
      parsePhase s = some ph → p.updatePhaseStatus s false now = .ok q →
      (q.phases.get ph).completed = false ∧
      (q.phases.get ph).completedDate = none) := by
  constructor
  · exact runOps_datesConsistent ops _ st (fun ph => by cases ph <;> rfl) hok
  · intro p q s ph now hp h
    have hget := (updatePhaseStatus_valid_get p q s ph false now hp h).1
    exact ⟨by rw [hget], by rw [hget]; rfl⟩

/-- Witness for C6 at a concrete run. -/
theorem claim_C6_witness :
    runOps ⟨Project.new "p1" "Acme" 0, []⟩ [Op.phaseUpdate "planning" true 3]
      = .ok ⟨sampleUpdatedProject, []⟩ ∧
    ((sampleUpdatedProject.phases.get .planning).completedDate).isSome
      = (sampleUpdatedProject.phases.get .planning).completed ∧
    parsePhase "planning" = some .planning ∧
    sampleProj.updatePhaseStatus "planning" false 5 = .ok sampleProj ∧
    (sampleProj.phases.get .planning).completedDate = none :=
  ⟨rfl,
   (claim_C6 "p1" "Acme" 0 [] [Op.phaseUpdate "planning" true 3]
      ⟨sampleUpdatedProject, []⟩ rfl).1 .planning,
   by decide, rfl,
   ((claim_C6 "p1" "Acme" 0 [] [Op.phaseUpdate "planning" true 3]
      ⟨sampleUpdatedProject, []⟩ rfl).2 sampleProj sampleProj "planning"
      .planning 5 (by decide) rfl).2⟩

/-- C2: on a successful task-status mutation, the affected phase's
recomputed `completed` flag equals "every task in that phase's (updated)
task list is completed", and the affected phase's task list is never
empty (it contains the updated task), so an empty phase is never the one
marked complete by a task mutation. -/
theorem claim_C2 (p : Project) (m : TaskMap) (tid : String)
    (c : Option Bool) (n : Option String) (now : Nat)
    (out : TaskUpdateOutcome)
    (hkeys : ∀ e ∈ m, e.1 ∈ phaseNames)
    (hok : putTaskHandler p m tid c n now = .ok out) :
    ∃ (ph : Phase) (ts' : List Task),
      parsePhase out.phase = some ph ∧
      (out.phase, ts') ∈ out.tasks ∧
      (out.project.phases.get ph).completed = ts'.all (·.completed) ∧
      ts' ≠ [] := by
  obtain ⟨m', k, u, b, p', hm, hp, hout⟩ :=
    putTaskHandler_ok p m tid c n now out hok
  obtain ⟨pre, ts, ts', post, he, he', hul, hb⟩ :=
    updateTaskInMap_some m tid c n now m' k u b hm
  have hkmem : (k, ts) ∈ m := by
    rw [he]
    exact List.mem_append_right _ (List.mem_cons_self _ _)
  obtain ⟨ph, hph⟩ := parsePhase_of_mem k (hkeys (k, ts) hkmem)
  obtain ⟨pre2, t0, post2, hts, hts', hu, hid⟩ :=
    updateTaskInList_some ts tid c n now ts' u hul
  have hget := (updatePhaseStatus_valid_get p p' k ph b now hph hp).1
  refine ⟨ph, ts', ?_, ?_, ?_, ?_⟩
  · rw [hout]
    exact hph
  · rw [hout, he']
    exact List.mem_append_right _ (List.mem_cons_self _ _)
  · rw [hout]
    show (p'.phases.get ph).completed = ts'.all (·.completed)
    rw [hget]
    exact hb
  · rw [hts']
    simp

/-- Witness for C2 at a concrete task update. -/
theorem claim_C2_witness :
    "planning" ∈ phaseNames ∧
    putTaskHandler sampleProj sampleMap1 "t1" (some true) none 4
      = .ok sampleOutcome1 ∧
    (∃ (ph : Phase) (ts' : List Task),
      parsePhase sampleOutcome1.phase = some ph ∧
      (sampleOutcome1.phase, ts') ∈ sampleOutcome1.tasks ∧
      (sampleOutcome1.project.phases.get ph).completed
        = ts'.all (·.completed) ∧
      ts' ≠ []) :=
  ⟨by decide, rfl,
   claim_C2 sampleProj sampleMap1 "t1" (some true) none 4 sampleOutcome1
     (by decide) rfl⟩

/-- C3: a successful task update leaves the project's `id`, `name` and
`createdDate` unchanged, and leaves the `PhaseStatus` (completed flag
and completedDate) of every phase other than the affected one
unchanged. -/
theorem claim_C3 (p : Project) (m : TaskMap) (tid : String)
    (c : Option Bool) (n : Option String) (now : Nat)
    (out : TaskUpdateOutcome)
    (hkeys : ∀ e ∈ m, e.1 ∈ phaseNames)
    (hok : putTaskHandler p m tid c n now = .ok out) :
    out.project.id = p.id ∧
    out.project.name = p.name ∧
    out.project.createdDate = p.createdDate ∧
    ∀ ph : Phase, ph.name ≠ out.phase →
      out.project.phases.get ph = p.phases.get ph := by
  obtain ⟨m', k, u, b, p', hm, hp, hout⟩ :=
    putTaskHandler_ok p m tid c n now out hok
  obtain ⟨pre, ts, ts', post, he, he', hul, hb⟩ :=
    updateTaskInMap_some m tid c n now m' k u b hm
  have hkmem : (k, ts) ∈ m := by
    rw [he]
    exact List.mem_append_right _ (List.mem_cons_self _ _)
  obtain ⟨aph, hph⟩ := parsePhase_of_mem k (hkeys (k, ts) hkmem)
  have hkname : k = aph.name := parsePhase_eq_some k aph hph
  have hfields := updatePhaseStatus_fields p p' k b now hp
  have hframe := (updatePhaseStatus_valid_get p p' k aph b now hph hp).2
  refine ⟨?_, ?_, ?_, ?_⟩
  · rw [hout]; exact hfields.1
  · rw [hout]; exact hfields.2.1
  · rw [hout]; exact hfields.2.2
  · intro ph hne
    have hne' : ph.name ≠ k := fun hh => hne (by rw [hout]; exact hh)
    have hnea : ph ≠ aph := fun hEq => hne' (by rw [hEq, ← hkname])
    rw [hout]
    exact hframe ph hnea

/-- Witness for C3 at a concrete task update. -/
theorem claim_C3_witness :
    "planning" ∈ phaseNames ∧
    putTaskHandler sampleProj sampleMap1 "t1" (some true) none 4
      = .ok sampleOutcome1 ∧
    sampleOutcome1.project.id = sampleProj.id ∧
    Phase.design.name ≠ sampleOutcome1.phase ∧
    sampleOutcome1.project.phases.get .design
      = sampleProj.phases.get .design :=
  ⟨by decide, rfl,
   (claim_C3 sampleProj sampleMap1 "t1" (some true) none 4 sampleOutcome1
     (by decide) rfl).1,
   by decide,
   (claim_C3 sampleProj sampleMap1 "t1" (some true) none 4 sampleOutcome1
     (by decide) rfl).2.2.2 .design (by decide)⟩

/-- C10: a notes-only update (no `completed` field) leaves the task's
`completed` flag and `completedDate` untouched while overwriting its
notes, yet the handler still recomputes the affected phase's status, so
when the phase's tasks are all completed the phase's `completedDate` is
restamped with the update's current instant. -/
theorem claim_C10 (p : Project) (m : TaskMap) (tid s : String) (now : Nat)
    (out : TaskUpdateOutcome) (t : Task)
    (hkeys : ∀ e ∈ m, e.1 ∈ phaseNames)
    (hok : putTaskHandler p m tid none (some s) now = .ok out) :
    ((applyTaskUpdate t none (some s) now).completed = t.completed ∧
     (applyTaskUpdate t none (some s) now).completedDate = t.completedDate ∧
     (applyTaskUpdate t none (some s) now).notes = s) ∧
    ∃ (ph : Phase) (ts' : List Task),
      parsePhase out.phase = some ph ∧
      (out.phase, ts') ∈ out.tasks ∧
      (ts'.all (·.completed) = true →
        (out.project.phases.get ph).completed = true ∧
        (out.project.phases.get ph).completedDate = some now) := by
  refine ⟨⟨rfl, rfl, rfl⟩, ?_⟩
  obtain ⟨m', k, u, b, p', hm, hp, hout⟩ :=
    putTaskHandler_ok p m tid none (some s) now out hok
  obtain ⟨pre, ts, ts', post, he, he', hul, hb⟩ :=
    updateTaskInMap_some m tid none (some s) now m' k u b hm
  have hkmem : (k, ts) ∈ m := by
    rw [he]
    exact List.mem_append_right _ (List.mem_cons_self _ _)
  obtain ⟨ph, hph⟩ := parsePhase_of_mem k (hkeys (k, ts) hkmem)
  have hget := (updatePhaseStatus_valid_get p p' k ph b now hph hp).1
  refine ⟨ph, ts', ?_, ?_, ?_⟩
  · rw [hout]
    exact hph
  · rw [hout, he']
    exact List.mem_append_right _ (List.mem_cons_self _ _)
  · intro hall
    have hb' : b = true := hb.trans hall
    rw [hout]
    constructor
    · show (p'.phases.get ph).completed = true
      rw [hget]
      exact hb'
    · show (p'.phases.get ph).completedDate = some now
      rw [hget, hb']
      rfl

/-- Witness for C10 at a concrete notes-only update. -/
theorem claim_C10_witness :
    "planning" ∈ phaseNames ∧
    putTaskHandler sampleProj [("planning", [doneTask "t1" "planning" 1])]
      "t1" none (some "n") 9 = .ok sampleOutcome2 ∧
    ((applyTaskUpdate notedTask none (some "n") 9).completed
        = notedTask.completed ∧
     (applyTaskUpdate notedTask none (some "n") 9).completedDate
        = notedTask.completedDate ∧
     (applyTaskUpdate notedTask none (some "n") 9).notes = "n") ∧
    (∃ (ph : Phase) (ts' : List Task),
      parsePhase sampleOutcome2.phase = some ph ∧
      (sampleOutcome2.phase, ts') ∈ sampleOutcome2.tasks ∧
      (ts'.all (·.completed) = true →
        (sampleOutcome2.project.phases.get ph).completed = true ∧
        (sampleOutcome2.project.phases.get ph).completedDate = some 9)) :=
  ⟨by decide, rfl,
   (claim_C10 sampleProj [("planning", [doneTask "t1" "planning" 1])]
     "t1" "n" 9 sampleOutcome2 notedTask (by decide) rfl).1,
   (claim_C10 sampleProj [("planning", [doneTask "t1" "planning" 1])]
     "t1" "n" 9 sampleOutcome2 notedTask (by decide) rfl).2⟩

end SSDLC

